import Mathlib

/-!
# Verification of the note-to-fretboard mapping engine

Shallow embedding of the two tablature-conversion modules of the Music
repository:

* `Midi` models `src/ai-models/src/services/midi_to_tab_converter.py`
  (`MidiToTabConverter` and its helpers);
* `Tab` models `src/ai-models/src/services/tab_renderer/tab_converter.py`
  (`TabConverter`, `ChordShapeDetector` and their helpers).

Modelling conventions:

* Python `int` is `ℤ` (or `ℕ` for 1-based string numbers), Python `float`
  is `ℚ` (the arithmetic appearing in the engine is exact on rationals);
* Python's `min(xs, key=f)` / stable `sort` return the *first* element
  attaining the optimum, which is mirrored by explicit first-minimum
  selectors;
* a Python function that can raise is modelled with `Option`, `none`
  standing for the raised exception;
* mutation of dataclass fields is modelled by returning updated records.
-/

namespace Music

namespace Midi

/-- Playing technique tags of `midi_to_tab_converter.Technique`. -/
inductive Technique where
  | NORMAL
  | HAMMER_ON
  | PULL_OFF
  | SLIDE_UP
  | SLIDE_DOWN
  | BEND
  | RELEASE
  | VIBRATO
  | PALM_MUTE
  | HARMONIC
  | TAP
deriving DecidableEq, Repr

/-- `midi_to_tab_converter.TabConfig` (the fields the mapping engine reads). -/
structure TabConfig where
  tuning : List ℤ := [40, 45, 50, 55, 59, 64]
  capo : ℤ := 0
  max_fret_span : ℤ := 4
  prefer_low_positions : Bool := true
deriving Repr

/-- `MidiToTabConverter.__init__`: `self.tuning = [note + self.config.capo
for note in self.config.tuning]`. -/
def effectiveTuning (cfg : TabConfig) : List ℤ :=
  cfg.tuning.map (fun t => t + cfg.capo)

/-- One extracted MIDI note (`pitch`, `start`, `end`, `velocity`). -/
structure MidiNote where
  pitch : ℤ
  start : ℚ
  stop : ℚ
  velocity : ℤ
deriving DecidableEq, Repr

/-- `midi_to_tab_converter.TabNote`. -/
structure TabNote where
  string : ℕ
  fret : ℤ
  start_time : ℚ
  duration : ℚ
  technique : Technique := .NORMAL
  velocity : ℤ := 80
  alternatives : List (ℕ × ℤ) := []
deriving DecidableEq, Repr

/-- Loop body of `MidiToTabConverter._get_fret_positions`: enumerate the
(capo-adjusted) tuning from string index `i`, keeping `(string_idx + 1,
fret)` whenever `0 <= fret <= 24` (`self.max_fret = 24`). -/
def getFretPositionsFrom (pitch : ℤ) : List ℤ → ℕ → List (ℕ × ℤ)
  | [], _ => []
  | openPitch :: rest, i =>
    let fret := pitch - openPitch
    if 0 ≤ fret ∧ fret ≤ 24 then
      (i + 1, fret) :: getFretPositionsFrom pitch rest (i + 1)
    else
      getFretPositionsFrom pitch rest (i + 1)

/-- `MidiToTabConverter._get_fret_positions`. -/
def getFretPositions (cfg : TabConfig) (pitch : ℤ) : List (ℕ × ℤ) :=
  getFretPositionsFrom pitch (effectiveTuning cfg) 0

theorem getFretPositionsFrom_mem (pitch : ℤ) :
    ∀ (l : List ℤ) (i : ℕ) (sf : ℕ × ℤ), sf ∈ getFretPositionsFrom pitch l i →
      ∃ j, j < l.length ∧ sf.1 = i + j + 1 ∧
        pitch = l.getD j 0 + sf.2 ∧ 0 ≤ sf.2 ∧ sf.2 ≤ 24 := by
  intro l
  induction l with
  | nil => intro i sf h; simp [getFretPositionsFrom] at h
  | cons a rest ih =>
    intro i sf h
    simp only [getFretPositionsFrom] at h
    by_cases hc : 0 ≤ pitch - a ∧ pitch - a ≤ 24
    · rw [if_pos hc] at h
      rcases List.mem_cons.mp h with heq | htail
      · refine ⟨0, by simp, ?_, ?_, ?_, ?_⟩ <;> subst heq <;> simp <;> omega
      · rcases ih (i + 1) sf htail with ⟨j, hj, hs, hp, h0, h24⟩
        exact ⟨j + 1, by simpa using hj, by omega, by simpa using hp, h0, h24⟩
    · rw [if_neg hc] at h
      rcases ih (i + 1) sf h with ⟨j, hj, hs, hp, h0, h24⟩
      exact ⟨j + 1, by simpa using hj, by omega, by simpa using hp, h0, h24⟩

theorem getFretPositionsFrom_eq_nil (pitch : ℤ) :
    ∀ (l : List ℤ) (i : ℕ), getFretPositionsFrom pitch l i = [] ↔
      ∀ j, j < l.length → pitch - l.getD j 0 < 0 ∨ 24 < pitch - l.getD j 0 := by
  intro l
  induction l with
  | nil => intro i; simp [getFretPositionsFrom]
  | cons a rest ih =>
    intro i
    simp only [getFretPositionsFrom]
    by_cases hc : 0 ≤ pitch - a ∧ pitch - a ≤ 24
    · rw [if_pos hc]
      constructor
      · intro h; exact absurd h (List.cons_ne_nil _ _)
      · intro h
        have := h 0 (by simp)
        simp only [List.getD_cons_zero] at this
        omega
    · rw [if_neg hc]
      rw [ih (i + 1)]
      constructor
      · intro h j hj
        match j with
        | 0 => simp only [List.getD_cons_zero]; omega
        | j + 1 =>
          have := h j (by simpa using hj)
          simpa using this
      · intro h j hj
        have := h (j + 1) (by simpa using hj)
        simpa using this

theorem effectiveTuning_getD (cfg : TabConfig) (j : ℕ) (hj : j < cfg.tuning.length) :
    (effectiveTuning cfg).getD j 0 = cfg.tuning.getD j 0 + cfg.capo := by
  unfold effectiveTuning
  rw [List.getD_eq_getElem _ _ (by simpa using hj), List.getD_eq_getElem _ _ hj]
  simp

/-- C1. Soundness and completeness of the position resolver: every candidate
`(s, f)` of `_get_fret_positions` satisfies
`pitch = tuning[s-1] + capo + f` with `0 ≤ f ≤ 24` (the fret ceiling
`self.max_fret`), and the candidate list is empty exactly when, on every
string, the required fret is negative or above the ceiling. -/
theorem c1_position_resolver (cfg : TabConfig) (pitch : ℤ) :
    (∀ sf ∈ getFretPositions cfg pitch,
      ∃ j, j < cfg.tuning.length ∧ sf.1 = j + 1 ∧
        pitch = cfg.tuning.getD j 0 + cfg.capo + sf.2 ∧ 0 ≤ sf.2 ∧ sf.2 ≤ 24)
    ∧ (getFretPositions cfg pitch = [] ↔
      ∀ j, j < cfg.tuning.length →
        pitch - (cfg.tuning.getD j 0 + cfg.capo) < 0 ∨
        24 < pitch - (cfg.tuning.getD j 0 + cfg.capo)) := by
  have hlen : (effectiveTuning cfg).length = cfg.tuning.length := by
    simp [effectiveTuning]
  constructor
  · intro sf hmem
    rcases getFretPositionsFrom_mem pitch (effectiveTuning cfg) 0 sf hmem with
      ⟨j, hj, hs, hp, h0, h24⟩
    rw [hlen] at hj
    refine ⟨j, hj, by omega, ?_, h0, h24⟩
    rw [effectiveTuning_getD cfg j hj] at hp
    omega
  · rw [getFretPositions, getFretPositionsFrom_eq_nil pitch (effectiveTuning cfg) 0]
    constructor
    · intro h j hj
      have := h j (by omega)
      rw [effectiveTuning_getD cfg j hj] at this
      exact this
    · intro h j hj
      rw [hlen] at hj
      have := h j hj
      rw [effectiveTuning_getD cfg j hj]
      exact this

/-- Standard-tuning configuration with no capo, as in concrete scenario 1. -/
def stdConfig : TabConfig := {}

/-- Python's `min(xs, key=f)` on the non-empty list `x :: xs`: the first
element attaining the minimal key. -/
def pyMinBy {α β : Type} [LinearOrder β] (f : α → β) : α → List α → α
  | x, [] => x
  | x, y :: ys =>
    let m := pyMinBy f y ys
    if f x ≤ f m then x else m

theorem pyMinBy_spec {α β : Type} [LinearOrder β] (f : α → β) (x : α) (xs : List α) :
    ∃ l1 l2, x :: xs = l1 ++ pyMinBy f x xs :: l2 ∧
      (∀ a ∈ l1, f (pyMinBy f x xs) < f a) ∧
      (∀ a ∈ x :: xs, f (pyMinBy f x xs) ≤ f a) := by
  induction xs generalizing x with
  | nil =>
    refine ⟨[], [], by simp [pyMinBy], by simp, ?_⟩
    intro a ha
    simp only [List.mem_singleton] at ha
    simp [ha, pyMinBy]
  | cons y ys ih =>
    rcases ih y with ⟨l1, l2, hsplit, hbefore, hmin⟩
    by_cases hxm : f x ≤ f (pyMinBy f y ys)
    · refine ⟨[], y :: ys, ?_, by simp, ?_⟩
      · simp [pyMinBy, hxm]
      · intro a ha
        simp only [pyMinBy, if_pos hxm]
        rcases List.mem_cons.mp ha with rfl | ha
        · exact le_refl _
        · exact le_trans hxm (hmin a ha)
    · push_neg at hxm
      refine ⟨x :: l1, l2, ?_, ?_, ?_⟩
      · simp only [pyMinBy, if_neg (not_le.mpr hxm), List.cons_append]
        rw [← hsplit]
      · intro a ha
        simp only [pyMinBy, if_neg (not_le.mpr hxm)]
        rcases List.mem_cons.mp ha with rfl | ha
        · exact hxm
        · exact hbefore a ha
      · intro a ha
        simp only [pyMinBy, if_neg (not_le.mpr hxm)]
        rcases List.mem_cons.mp ha with rfl | ha
        · exact le_of_lt hxm
        · exact hmin a ha

theorem pyMinBy_mem {α β : Type} [LinearOrder β] (f : α → β) (x : α) (xs : List α) :
    pyMinBy f x xs ∈ x :: xs := by
  rcases pyMinBy_spec f x xs with ⟨l1, l2, hsplit, -, -⟩
  rw [hsplit]
  exact List.mem_append.mpr (Or.inr (List.mem_cons_self _ _))

/-- Movement cost of one candidate given the previously chosen position,
from the `previous is not None` branch of
`MidiToTabConverter._select_optimal_position`. -/
def positionCost (cfg : TabConfig) (previous : ℕ × ℤ) (melodic : Bool)
    (pos : ℕ × ℤ) : ℚ :=
  let string_diff : ℤ := |(pos.1 : ℤ) - (previous.1 : ℤ)|
  let fret_diff : ℤ := |pos.2 - previous.2|
  let base : ℚ := (string_diff : ℚ) * 3 + (fret_diff : ℚ)
  let stretch : ℚ :=
    if cfg.max_fret_span < fret_diff then ((fret_diff - cfg.max_fret_span : ℤ) : ℚ) * 5 else 0
  let melodicCost : ℚ := if melodic then (string_diff : ℚ) * 2 else 0
  let highCost : ℚ :=
    if cfg.prefer_low_positions = true ∧ 12 < pos.2 then ((pos.2 - 12 : ℤ) : ℚ) * (1 / 2) else 0
  base + stretch + melodicCost + highCost

/-- `MidiToTabConverter._select_optimal_position` on a non-empty candidate
list `p :: ps` (the caller guards against the empty case).  With no
previous position it takes `min(positions, key=lambda p: p[1])` when
`prefer_low_positions` is set and `positions[len(positions) // 2]`
otherwise; with a previous position it minimizes `positionCost`.
`melodic` is `context.get('melodic', False)`. -/
def selectOptimalPosition (cfg : TabConfig) (p : ℕ × ℤ) (ps : List (ℕ × ℤ))
    (previous : Option (ℕ × ℤ)) (melodic : Bool) : ℕ × ℤ :=
  match previous with
  | none =>
    if cfg.prefer_low_positions then
      pyMinBy (fun q => q.2) p ps
    else
      (p :: ps).getD ((p :: ps).length / 2) p
  | some prev => pyMinBy (positionCost cfg prev melodic) p ps

/-- `MidiToTabConverter._convert_to_tab_notes`.  Returns the pitches of the
skipped unplayable notes (the `logger.warning` branch) together with the
produced tab notes.  The extracted MIDI notes carry no `'context'` key, so
`context.get('melodic', False)` is `false`. -/
def convertToTabNotes (cfg : TabConfig) :
    List MidiNote → Option (ℕ × ℤ) → List ℤ × List TabNote
  | [], _ => ([], [])
  | n :: rest, prev =>
    match getFretPositions cfg n.pitch with
    | [] =>
      let r := convertToTabNotes cfg rest prev
      (n.pitch :: r.1, r.2)
    | p :: ps =>
      let opt := selectOptimalPosition cfg p ps prev false
      let tn : TabNote :=
        { string := opt.1
          fret := opt.2
          start_time := n.start
          duration := n.stop - n.start
          velocity := n.velocity
          alternatives := (p :: ps).filter (fun q => q ≠ opt) }
      let r := convertToTabNotes cfg rest (some opt)
      (r.1, tn :: r.2)

/-- C2. The conversion loop partitions the input: the warnings and the
produced `TabNote`s together count every input note exactly once, the
warnings being exactly the notes with an empty candidate set and the
`TabNote`s exactly the playable ones. -/
theorem c2_warnings_plus_notes (cfg : TabConfig) (notes : List MidiNote)
    (prev : Option (ℕ × ℤ)) :
    (convertToTabNotes cfg notes prev).1.length +
      (convertToTabNotes cfg notes prev).2.length = notes.length ∧
    (convertToTabNotes cfg notes prev).1 =
      (notes.filter (fun n => getFretPositions cfg n.pitch = [])).map (fun n => n.pitch) ∧
    (convertToTabNotes cfg notes prev).2.length =
      (notes.filter (fun n => getFretPositions cfg n.pitch ≠ [])).length := by
  induction notes generalizing prev with
  | nil => simp [convertToTabNotes]
  | cons n rest ih =>
    rcases hE : getFretPositions cfg n.pitch with _ | ⟨p, ps⟩
    · have h := ih prev
      simp only [convertToTabNotes, hE]
      rw [List.filter_cons_of_pos (by simp [hE]), List.filter_cons_of_neg (by simp [hE])]
      simp only [List.length_cons, List.map_cons]
      exact ⟨by omega, by rw [h.2.1], h.2.2⟩
    · have h := ih (some (selectOptimalPosition cfg p ps prev false))
      have hfil1 : List.filter (fun m => decide (getFretPositions cfg m.pitch = [])) (n :: rest)
          = List.filter (fun m => decide (getFretPositions cfg m.pitch = [])) rest := by
        rw [List.filter_cons]; simp [hE]
      have hfil2 : List.filter (fun m => decide (getFretPositions cfg m.pitch ≠ [])) (n :: rest)
          = n :: List.filter (fun m => decide (getFretPositions cfg m.pitch ≠ [])) rest := by
        rw [List.filter_cons]; simp [hE]
      refine ⟨?_, ?_, ?_⟩
      · simp only [convertToTabNotes, hE, List.length_cons]
        have h1 := h.1
        omega
      · simp only [convertToTabNotes, hE]
        rw [hfil1]
        exact h.2.1
      · simp only [convertToTabNotes, hE]
        rw [hfil2]
        simp only [List.length_cons]
        rw [h.2.2]

/-- Witness for C2 at concrete scenario 2 of the spec: pitch 28 under the
standard profile is unreachable, so one warning and zero tab notes. -/
theorem c2_warnings_plus_notes_witness :
    (convertToTabNotes stdConfig [⟨28, 0, 1, 80⟩] none).1.length +
      (convertToTabNotes stdConfig [⟨28, 0, 1, 80⟩] none).2.length = 1 ∧
    (convertToTabNotes stdConfig [⟨28, 0, 1, 80⟩] none).1 =
      ((([⟨28, 0, 1, 80⟩] : List MidiNote).filter
        (fun n => getFretPositions stdConfig n.pitch = [])).map (fun n => n.pitch)) ∧
    (convertToTabNotes stdConfig [⟨28, 0, 1, 80⟩] none).2.length =
      (([⟨28, 0, 1, 80⟩] : List MidiNote).filter
        (fun n => getFretPositions stdConfig n.pitch ≠ [])).length :=
  c2_warnings_plus_notes stdConfig [⟨28, 0, 1, 80⟩] none

theorem getFretPositionsFrom_mem_lt (pitch : ℤ) (l : List ℤ) (i : ℕ) :
    ∀ sf ∈ getFretPositionsFrom pitch l i, i < sf.1 := by
  intro sf hmem
  rcases getFretPositionsFrom_mem pitch l i sf hmem with ⟨j, -, hs, -, -, -⟩
  omega

theorem getFretPositionsFrom_strings_sorted (pitch : ℤ) :
    ∀ (l : List ℤ) (i : ℕ),
      (getFretPositionsFrom pitch l i).Pairwise (fun a b => a.1 < b.1) := by
  intro l
  induction l with
  | nil => intro i; simp [getFretPositionsFrom]
  | cons a rest ih =>
    intro i
    simp only [getFretPositionsFrom]
    by_cases hc : 0 ≤ pitch - a ∧ pitch - a ≤ 24
    · rw [if_pos hc]
      refine List.pairwise_cons.mpr ⟨?_, ih (i + 1)⟩
      intro b hb
      have := getFretPositionsFrom_mem_lt pitch rest (i + 1) b hb
      omega
    · rw [if_neg hc]
      exact ih (i + 1)

/-- C8. First playable note with `prefer_low_positions`: the selector picks
the candidate with the lowest fret, and among candidates of equal minimal
fret the one on the lowest string (the resolver lists strings in increasing
order and Python's `min` keeps the first minimum). -/
theorem c8_first_note_lowest_fret (cfg : TabConfig) (pitch : ℤ)
    (p : ℕ × ℤ) (ps : List (ℕ × ℤ))
    (hlow : cfg.prefer_low_positions = true)
    (hpos : getFretPositions cfg pitch = p :: ps) :
    selectOptimalPosition cfg p ps none false ∈ p :: ps ∧
    (∀ q ∈ p :: ps, (selectOptimalPosition cfg p ps none false).2 ≤ q.2) ∧
    (∀ q ∈ p :: ps, q.2 = (selectOptimalPosition cfg p ps none false).2 →
      (selectOptimalPosition cfg p ps none false).1 ≤ q.1) := by
  have hsel : selectOptimalPosition cfg p ps none false =
      pyMinBy (fun q => q.2) p ps := by
    simp [selectOptimalPosition, hlow]
  have hsorted : (p :: ps).Pairwise (fun a b => a.1 < b.1) := by
    rw [← hpos]
    exact getFretPositionsFrom_strings_sorted pitch (effectiveTuning cfg) 0
  rcases pyMinBy_spec (fun q => q.2) p ps with ⟨l1, l2, hsplit, hbefore, hmin⟩
  rw [hsel]
  refine ⟨pyMinBy_mem _ p ps, fun q hq => hmin q hq, ?_⟩
  intro q hq heq
  rw [hsplit] at hq hsorted
  rcases List.mem_append.mp hq with hq1 | hq2
  · exact absurd (hbefore q hq1) (by rw [heq]; exact lt_irrefl _)
  · rcases List.mem_cons.mp hq2 with rfl | hq2
    · exact le_refl _
    · have := (List.pairwise_append.mp hsorted).2.1
      exact le_of_lt ((List.pairwise_cons.mp this).1 q hq2)

/-- Witness for C8 at concrete scenario 1: standard tuning, capo 0,
single note of pitch 64; the candidate set contains the open-string
candidate (code string 6, i.e. 0-based string index 5, fret 0) and the
selector picks it. -/
theorem c8_first_note_lowest_fret_witness :
    selectOptimalPosition stdConfig (1, 24) [(2, 19), (3, 14), (4, 9), (5, 5), (6, 0)]
        none false ∈ ((1, 24) : ℕ × ℤ) :: [(2, 19), (3, 14), (4, 9), (5, 5), (6, 0)] ∧
    getFretPositions stdConfig 64 =
      ((1, 24) : ℕ × ℤ) :: [(2, 19), (3, 14), (4, 9), (5, 5), (6, 0)] ∧
    ((6, 0) : ℕ × ℤ) ∈ getFretPositions stdConfig 64 ∧
    selectOptimalPosition stdConfig (1, 24) [(2, 19), (3, 14), (4, 9), (5, 5), (6, 0)]
        none false = (6, 0) ∧
    (convertToTabNotes stdConfig [⟨64, 0, 1/2, 80⟩] none).2.map
      (fun t => (t.string, t.fret)) = [(6, 0)] := by
  refine ⟨(c8_first_note_lowest_fret stdConfig 64 (1, 24)
    [(2, 19), (3, 14), (4, 9), (5, 5), (6, 0)] rfl (by decide)).1,
    by decide, by decide, by decide, by decide⟩

/-- Witness for C1 at the standard profile and pitch 64: the resolver
returns a non-empty list whose head `(1, 24)` satisfies the identity. -/
theorem c1_position_resolver_witness :
    ∃ j, j < stdConfig.tuning.length ∧ (1, (24 : ℤ)).1 = j + 1 ∧
      (64 : ℤ) = stdConfig.tuning.getD j 0 + stdConfig.capo + (1, (24 : ℤ)).2 ∧
      0 ≤ (1, (24 : ℤ)).2 ∧ (1, (24 : ℤ)).2 ≤ 24 :=
  (c1_position_resolver stdConfig 64).1 (1, 24) (by decide)

/-- The chord-identification result of `MidiToTabConverter._identify_chord`. -/
structure ChordIdent where
  root : String
  type : String
  shape : Option String
  pitches : List ℤ
deriving DecidableEq, Repr

/-- One dict appended to `chords` by `MidiToTabConverter._detect_chords`. -/
structure ChordDict where
  time : ℚ
  duration : ℚ
  chord : ChordIdent
  tab_positions : List (ℕ × ℤ)
deriving DecidableEq, Repr

/-- `midi_to_tab_converter.TabMeasure` (the data fields). -/
structure TabMeasure where
  measure_number : ℕ
  time_signature : ℕ × ℕ
  tempo : ℚ
  notes : List TabNote
  chords : List ChordDict
deriving DecidableEq, Repr

/-- `measure_duration = beats_per_measure * (60.0 / tempo)` from
`MidiToTabConverter._organize_measures`. -/
def measureDuration (beats : ℕ) (tempo : ℚ) : ℚ :=
  (beats : ℚ) * (60 / tempo)

/-- The note loop of `MidiToTabConverter._organize_measures`: `cur` is
`current_measure_notes`, `mstart` is `measure_start`, `num` is
`measure_num`.  A note starting before `measure_start + measure_duration`
joins the current measure; otherwise the current measure is emitted (with
the chords of its time window) and `measure_start` advances by exactly one
`measure_duration`. -/
def organizeAux (timeSig : ℕ × ℕ) (tempo : ℚ) (d : ℚ) (chords : List ChordDict) :
    List TabNote → List TabNote → ℚ → ℕ → List TabMeasure
  | [], cur, mstart, num =>
    if cur = [] then []
    else [⟨num, timeSig, tempo, cur, chords.filter (fun c => mstart ≤ c.time)⟩]
  | n :: rest, cur, mstart, num =>
    if n.start_time < mstart + d then
      organizeAux timeSig tempo d chords rest (cur ++ [n]) mstart num
    else
      ⟨num, timeSig, tempo, cur,
          chords.filter (fun c => mstart ≤ c.time ∧ c.time < mstart + d)⟩ ::
        organizeAux timeSig tempo d chords rest [n] (mstart + d) (num + 1)

/-- `MidiToTabConverter._organize_measures` (notes part). -/
def organizeMeasures (tabNotes : List TabNote) (chords : List ChordDict)
    (tempo : ℚ) (timeSig : ℕ × ℕ) : List TabMeasure :=
  organizeAux timeSig tempo (measureDuration timeSig.1 tempo) chords tabNotes [] 0 1

theorem organizeAux_join (timeSig : ℕ × ℕ) (tempo : ℚ) (d : ℚ)
    (chords : List ChordDict) :
    ∀ (l cur : List TabNote) (mstart : ℚ) (num : ℕ),
      ((organizeAux timeSig tempo d chords l cur mstart num).map TabMeasure.notes).flatten
        = cur ++ l := by
  intro l
  induction l with
  | nil =>
    intro cur mstart num
    by_cases hc : cur = []
    · simp [organizeAux, hc]
    · simp [organizeAux, hc]
  | cons n rest ih =>
    intro cur mstart num
    simp only [organizeAux]
    by_cases hc : n.start_time < mstart + d
    · rw [if_pos hc, ih]
      simp
    · rw [if_neg hc]
      simp only [List.map_cons, List.flatten_cons]
      rw [ih]
      simp

theorem organizeAux_numbers (timeSig : ℕ × ℕ) (tempo : ℚ) (d : ℚ)
    (chords : List ChordDict) :
    ∀ (l cur : List TabNote) (mstart : ℚ) (num : ℕ),
      (organizeAux timeSig tempo d chords l cur mstart num).map TabMeasure.measure_number
        = List.range' num (organizeAux timeSig tempo d chords l cur mstart num).length := by
  intro l
  induction l with
  | nil =>
    intro cur mstart num
    by_cases hc : cur = []
    · simp [organizeAux, hc]
    · simp [organizeAux, hc, List.range']
  | cons n rest ih =>
    intro cur mstart num
    simp only [organizeAux]
    by_cases hc : n.start_time < mstart + d
    · rw [if_pos hc, ih]
    · rw [if_neg hc]
      simp only [List.map_cons, List.length_cons, List.range'_succ]
      rw [ih]

/-- C5. The output measures partition the converted notes: concatenating
the measures' note lists in measure order reproduces the input list exactly
(so no note is lost or duplicated and the chronological order is kept),
the measure numbers are consecutive from 1, and for a chronologically
sorted input the note sets of the measures are time-ordered across
measures. -/
theorem c5_measures_partition (tabNotes : List TabNote) (chords : List ChordDict)
    (tempo : ℚ) (timeSig : ℕ × ℕ)
    (hsorted : tabNotes.Pairwise (fun a b => a.start_time ≤ b.start_time)) :
    ((organizeMeasures tabNotes chords tempo timeSig).map TabMeasure.notes).flatten = tabNotes ∧
    (organizeMeasures tabNotes chords tempo timeSig).map TabMeasure.measure_number
      = List.range' 1 (organizeMeasures tabNotes chords tempo timeSig).length ∧
    (organizeMeasures tabNotes chords tempo timeSig).Pairwise
      (fun m1 m2 => ∀ a ∈ m1.notes, ∀ b ∈ m2.notes, a.start_time ≤ b.start_time) := by
  have hjoin : ((organizeMeasures tabNotes chords tempo timeSig).map TabMeasure.notes).flatten
      = tabNotes := by
    rw [organizeMeasures, organizeAux_join]
    simp
  refine ⟨hjoin, organizeAux_numbers timeSig tempo _ chords tabNotes [] 0 1, ?_⟩
  have hp : (((organizeMeasures tabNotes chords tempo timeSig).map TabMeasure.notes).flatten).Pairwise
      (fun a b => a.start_time ≤ b.start_time) := by
    rw [hjoin]; exact hsorted
  have hp2 := (List.pairwise_flatten.mp hp).2
  rw [List.pairwise_map] at hp2
  exact hp2

/-- Witness for C5: three notes at 0, 1.999 and 2 seconds. -/
theorem c5_measures_partition_witness :
    ((organizeMeasures
        [⟨1, 0, 0, 1, .NORMAL, 80, []⟩, ⟨1, 3, 1999/1000, 1, .NORMAL, 80, []⟩,
          ⟨1, 5, 2, 1, .NORMAL, 80, []⟩] [] 120 (4, 4)).map TabMeasure.notes).flatten
      = [⟨1, 0, 0, 1, .NORMAL, 80, []⟩, ⟨1, 3, 1999/1000, 1, .NORMAL, 80, []⟩,
          ⟨1, 5, 2, 1, .NORMAL, 80, []⟩] ∧
    (organizeMeasures
        [⟨1, 0, 0, 1, .NORMAL, 80, []⟩, ⟨1, 3, 1999/1000, 1, .NORMAL, 80, []⟩,
          ⟨1, 5, 2, 1, .NORMAL, 80, []⟩] [] 120 (4, 4)).map TabMeasure.measure_number
      = List.range' 1 (organizeMeasures
        [⟨1, 0, 0, 1, .NORMAL, 80, []⟩, ⟨1, 3, 1999/1000, 1, .NORMAL, 80, []⟩,
          ⟨1, 5, 2, 1, .NORMAL, 80, []⟩] [] 120 (4, 4)).length ∧
    (organizeMeasures
        [⟨1, 0, 0, 1, .NORMAL, 80, []⟩, ⟨1, 3, 1999/1000, 1, .NORMAL, 80, []⟩,
          ⟨1, 5, 2, 1, .NORMAL, 80, []⟩] [] 120 (4, 4)).Pairwise
      (fun m1 m2 => ∀ a ∈ m1.notes, ∀ b ∈ m2.notes, a.start_time ≤ b.start_time) :=
  c5_measures_partition
    [⟨1, 0, 0, 1, .NORMAL, 80, []⟩, ⟨1, 3, 1999/1000, 1, .NORMAL, 80, []⟩,
      ⟨1, 5, 2, 1, .NORMAL, 80, []⟩] [] 120 (4, 4)
    (by norm_num [List.pairwise_cons])

/-- A one-beat tab note on the open first string starting at time `t`. -/
def noteAt (t : ℚ) : TabNote :=
  { string := 1, fret := 0, start_time := t, duration := 1 }

/-- C4 counterexample.  At 120 BPM in 4/4 (`measure_duration = 2`), notes
at 0 s and 10 s: the second note lands in the measure with number 2
(0-based index 1), but the claim's interval for index 1, `[2, 4)`, does not
contain 10 (the claimed index would be 5).  `measure_start` advances by
exactly one duration per boundary-crossing note, so empty measures
collapse. -/
theorem c4_measure_assignment_counterexample :
    measureDuration 4 120 = 2 ∧
    (organizeMeasures [noteAt 0, noteAt 10] [] 120 (4, 4)).map
      (fun m => (m.measure_number, m.notes.map TabNote.start_time))
      = [(1, [0]), (2, [10])] ∧
    ¬(((2 : ℚ) - 1) * 2 ≤ 10 ∧ (10 : ℚ) < (((2 : ℚ) - 1) + 1) * 2) := by
  refine ⟨by norm_num [measureDuration], ?_, by norm_num⟩
  norm_num [organizeMeasures, organizeAux, measureDuration, noteAt]

theorem organizeAux_number_ge (timeSig : ℕ × ℕ) (tempo : ℚ) (d : ℚ)
    (chords : List ChordDict) :
    ∀ (l cur : List TabNote) (mstart : ℚ) (num : ℕ),
      ∀ m ∈ organizeAux timeSig tempo d chords l cur mstart num,
        num ≤ m.measure_number := by
  intro l
  induction l with
  | nil =>
    intro cur mstart num m hm
    by_cases hc : cur = [] <;> simp [organizeAux, hc] at hm
    subst hm
    exact le_refl _
  | cons n rest ih =>
    intro cur mstart num m hm
    simp only [organizeAux] at hm
    by_cases hc : n.start_time < mstart + d
    · rw [if_pos hc] at hm
      exact ih _ _ _ m hm
    · rw [if_neg hc] at hm
      rcases List.mem_cons.mp hm with rfl | hm
      · exact le_refl _
      · exact le_trans (Nat.le_succ num) (ih _ _ _ m hm)

theorem organizeAux_lower (timeSig : ℕ × ℕ) (tempo : ℚ) (d : ℚ)
    (chords : List ChordDict) :
    ∀ (l cur : List TabNote) (mstart : ℚ) (num : ℕ),
      l.Pairwise (fun a b => a.start_time ≤ b.start_time) →
      (∀ x ∈ cur, mstart ≤ x.start_time) →
      (∀ x ∈ l, mstart ≤ x.start_time) →
      ∀ m ∈ organizeAux timeSig tempo d chords l cur mstart num, ∀ a ∈ m.notes,
        mstart + ((m.measure_number - num : ℕ) : ℚ) * d ≤ a.start_time := by
  intro l
  induction l with
  | nil =>
    intro cur mstart num hsort hcur hl m hm a ha
    by_cases hc : cur = [] <;> simp [organizeAux, hc] at hm
    subst hm
    have hmem : a ∈ cur := ha
    show mstart + ((num - num : ℕ) : ℚ) * d ≤ a.start_time
    rw [Nat.sub_self]
    simpa using hcur a hmem
  | cons n rest ih =>
    intro cur mstart num hsort hcur hl m hm a ha
    simp only [organizeAux] at hm
    have hrest_sorted := (List.pairwise_cons.mp hsort).2
    have hhead := (List.pairwise_cons.mp hsort).1
    by_cases hc : n.start_time < mstart + d
    · rw [if_pos hc] at hm
      refine ih (cur ++ [n]) mstart num hrest_sorted ?_ ?_ m hm a ha
      · intro x hx
        rcases List.mem_append.mp hx with hx | hx
        · exact hcur x hx
        · simp only [List.mem_singleton] at hx
          subst hx
          exact hl x (List.mem_cons_self _ _)
      · intro x hx
        exact hl x (List.mem_cons_of_mem _ hx)
    · rw [if_neg hc] at hm
      push_neg at hc
      rcases List.mem_cons.mp hm with rfl | hm
      · simp only [Nat.sub_self]
        simpa using hcur a ha
      · have hge := organizeAux_number_ge timeSig tempo d chords rest [n] (mstart + d)
          (num + 1) m hm
        have hIH := ih [n] (mstart + d) (num + 1) hrest_sorted ?_ ?_ m hm a ha
        · have hcast : ((m.measure_number - num : ℕ) : ℚ)
              = ((m.measure_number - (num + 1) : ℕ) : ℚ) + 1 := by
            have : m.measure_number - num = (m.measure_number - (num + 1)) + 1 := by omega
            rw [this]
            push_cast
            ring
          rw [hcast]
          have : mstart + (((m.measure_number - (num + 1) : ℕ) : ℚ) + 1) * d
              = (mstart + d) + ((m.measure_number - (num + 1) : ℕ) : ℚ) * d := by ring
          rw [this]
          exact hIH
        · intro x hx
          simp only [List.mem_singleton] at hx
          subst hx
          exact hc
        · intro x hx
          exact le_trans hc (hhead x hx)

/-- C4 amended.  `measure_duration = beats * 60 / tempo`; a note is placed
in the current measure exactly when its start precedes
`measure_start + measure_duration`, and a boundary-crossing note advances
`measure_start` by exactly one duration (so at 120 BPM in 4/4 a note at
1.999 s lands in measure 1 and a note at 2.000 s in measure 2, but a note
separated from its predecessor by several empty measures lands in the
*next* measure number, not in index `floor(start/duration)`).  For sorted
non-negative input, every note's start time is at least its measure's
nominal start `(measure_number - 1) * duration`. -/
theorem c4_measure_assignment_amended (tabNotes : List TabNote)
    (chords : List ChordDict) (tempo : ℚ) (timeSig : ℕ × ℕ)
    (hsorted : tabNotes.Pairwise (fun a b => a.start_time ≤ b.start_time))
    (hnn : ∀ a ∈ tabNotes, 0 ≤ a.start_time) :
    measureDuration 4 120 = 2 ∧
    (organizeMeasures [noteAt (1999/1000), noteAt 2] [] 120 (4, 4)).map
      (fun m => (m.measure_number, m.notes.map TabNote.start_time))
      = [(1, [1999/1000]), (2, [2])] ∧
    ∀ m ∈ organizeMeasures tabNotes chords tempo timeSig, ∀ a ∈ m.notes,
      ((m.measure_number - 1 : ℕ) : ℚ) * measureDuration timeSig.1 tempo
        ≤ a.start_time := by
  refine ⟨by norm_num [measureDuration], ?_, ?_⟩
  · norm_num [organizeMeasures, organizeAux, measureDuration, noteAt]
  · intro m hm a ha
    have := organizeAux_lower timeSig tempo (measureDuration timeSig.1 tempo) chords
      tabNotes [] 0 1 hsorted (by simp) (fun x hx => hnn x hx) m hm a ha
    simpa using this

/-- Witness for the amended C4 at the two-note gap example. -/
theorem c4_measure_assignment_amended_witness :
    measureDuration 4 120 = 2 ∧
    (organizeMeasures [noteAt (1999/1000), noteAt 2] [] 120 (4, 4)).map
      (fun m => (m.measure_number, m.notes.map TabNote.start_time))
      = [(1, [1999/1000]), (2, [2])] ∧
    ∀ m ∈ organizeMeasures [noteAt 0, noteAt 10] [] 120 (4, 4), ∀ a ∈ m.notes,
      ((m.measure_number - 1 : ℕ) : ℚ) * measureDuration 4 120 ≤ a.start_time :=
  c4_measure_assignment_amended [noteAt 0, noteAt 10] [] 120 (4, 4)
    (by norm_num [List.pairwise_cons, noteAt])
    (by intro a ha; fin_cases ha <;> norm_num [noteAt])

/-- One step of `MidiToTabConverter._detect_techniques`: compare
`curr_note` with `prev_note = tab_notes[i-1]`.  The gap is the difference
of the two *start* times, the hammer-on/pull-off window is 0.1 s and the
slide window 0.2 s. -/
def classifyTechnique (prev cur : TabNote) : TabNote :=
  if prev.string = cur.string then
    let time_diff := cur.start_time - prev.start_time
    let fret_diff := cur.fret - prev.fret
    if 0 < fret_diff ∧ time_diff < 1/10 ∧ cur.velocity < prev.velocity then
      { cur with technique := .HAMMER_ON }
    else if fret_diff < 0 ∧ time_diff < 1/10 ∧ cur.velocity < prev.velocity then
      { cur with technique := .PULL_OFF }
    else if 1 < |fret_diff| ∧ time_diff < 1/5 then
      if 0 < fret_diff then { cur with technique := .SLIDE_UP }
      else { cur with technique := .SLIDE_DOWN }
    else cur
  else cur

def detectTechniquesAux (prev : TabNote) : List TabNote → List TabNote
  | [] => []
  | c :: rest =>
    classifyTechnique prev c :: detectTechniquesAux (classifyTechnique prev c) rest

/-- `MidiToTabConverter._detect_techniques` (the note at index 0 is left
untouched; each later note is classified against its predecessor). -/
def detectTechniques : List TabNote → List TabNote
  | [] => []
  | n :: rest => n :: detectTechniquesAux n rest

/-- First note of the spec's technique scenario: string 1, fret 5,
0.0–0.5 s, velocity 100. -/
def c6NotePrev : TabNote :=
  { string := 1, fret := 5, start_time := 0, duration := 1/2, velocity := 100 }

/-- Second note of the scenario: string 1, fret 3 at 0.51 s (10 ms after
the previous end), lower velocity 80. -/
def c6NoteCur : TabNote :=
  { string := 1, fret := 3, start_time := 51/100, duration := 1/2, velocity := 80 }

/-- C6 counterexample.  The scenario satisfies every condition of the
claim (same string, lower fret, end-to-start gap 10 ms < 100 ms, lower
velocity) yet `_detect_techniques` leaves the second note NORMAL: the code
measures the gap between the two *start* times (0.51 s, not < 0.1 s). -/
theorem c6_technique_counterexample :
    c6NotePrev.string = c6NoteCur.string ∧
    c6NoteCur.fret < c6NotePrev.fret ∧
    c6NoteCur.start_time - (c6NotePrev.start_time + c6NotePrev.duration) < 1/10 ∧
    c6NoteCur.velocity < c6NotePrev.velocity ∧
    (detectTechniques [c6NotePrev, c6NoteCur]).map TabNote.technique
      = [.NORMAL, .NORMAL] := by
  refine ⟨rfl, by norm_num [c6NotePrev, c6NoteCur], by norm_num [c6NotePrev, c6NoteCur],
    by norm_num [c6NotePrev, c6NoteCur], ?_⟩
  norm_num [detectTechniques, detectTechniquesAux, classifyTechnique, c6NotePrev, c6NoteCur]

theorem classifyTechnique_technique (a b : TabNote) :
    (classifyTechnique a b).technique =
      if a.string = b.string then
        if 0 < b.fret - a.fret ∧ b.start_time - a.start_time < 1/10 ∧
            b.velocity < a.velocity then .HAMMER_ON
        else if b.fret - a.fret < 0 ∧ b.start_time - a.start_time < 1/10 ∧
            b.velocity < a.velocity then .PULL_OFF
        else if 1 < |b.fret - a.fret| ∧ b.start_time - a.start_time < 1/5 then
          (if 0 < b.fret - a.fret then .SLIDE_UP else .SLIDE_DOWN)
        else b.technique
      else b.technique := by
  simp only [classifyTechnique]
  split_ifs <;> rfl

theorem classifyTechnique_hammer (a b : TabNote) (hb : b.technique = .NORMAL) :
    ((classifyTechnique a b).technique = .HAMMER_ON ↔
      (a.string = b.string ∧ a.fret < b.fret ∧ b.start_time - a.start_time < 1/10 ∧
        b.velocity < a.velocity)) ∧
    ((classifyTechnique a b).technique = .PULL_OFF ↔
      (a.string = b.string ∧ b.fret < a.fret ∧ b.start_time - a.start_time < 1/10 ∧
        b.velocity < a.velocity)) := by
  have ht := classifyTechnique_technique a b
  by_cases hs : a.string = b.string
  · by_cases hH : 0 < b.fret - a.fret ∧ b.start_time - a.start_time < 1/10 ∧
        b.velocity < a.velocity
    · rw [if_pos hs, if_pos hH] at ht
      rw [ht]
      refine ⟨⟨fun _ => ⟨hs, by omega, hH.2.1, hH.2.2⟩, fun _ => rfl⟩,
        ⟨fun h => absurd h (by simp), fun h => ?_⟩⟩
      exfalso
      have h1 := hH.1
      have h2 := h.2.1
      omega
    · by_cases hP : b.fret - a.fret < 0 ∧ b.start_time - a.start_time < 1/10 ∧
          b.velocity < a.velocity
      · rw [if_pos hs, if_neg hH, if_pos hP] at ht
        rw [ht]
        refine ⟨⟨fun h => absurd h (by simp), fun h => ?_⟩,
          ⟨fun _ => ⟨hs, by omega, hP.2.1, hP.2.2⟩, fun _ => rfl⟩⟩
        exfalso
        have h1 := hP.1
        have h2 := h.2.1
        omega
      · by_cases hS : 1 < |b.fret - a.fret| ∧ b.start_time - a.start_time < 1/5
        · rw [if_pos hs, if_neg hH, if_neg hP, if_pos hS] at ht
          by_cases hU : 0 < b.fret - a.fret
          · rw [if_pos hU] at ht
            rw [ht]
            refine ⟨⟨fun h => absurd h (by simp), fun h => ?_⟩,
              ⟨fun h => absurd h (by simp), fun h => ?_⟩⟩
            · exact absurd ⟨by omega, h.2.2.1, h.2.2.2⟩ hH
            · exfalso
              have h2 := h.2.1
              omega
          · rw [if_neg hU] at ht
            rw [ht]
            refine ⟨⟨fun h => absurd h (by simp), fun h => ?_⟩,
              ⟨fun h => absurd h (by simp), fun h => ?_⟩⟩
            · exfalso
              have h2 := h.2.1
              omega
            · exact absurd ⟨by omega, h.2.2.1, h.2.2.2⟩ hP
        · rw [if_pos hs, if_neg hH, if_neg hP, if_neg hS] at ht
          rw [ht, hb]
          refine ⟨⟨fun h => absurd h (by simp), fun h => ?_⟩,
            ⟨fun h => absurd h (by simp), fun h => ?_⟩⟩
          · exact absurd ⟨by omega, h.2.2.1, h.2.2.2⟩ hH
          · exact absurd ⟨by omega, h.2.2.1, h.2.2.2⟩ hP
  · rw [if_neg hs] at ht
    rw [ht, hb]
    exact ⟨⟨fun h => absurd h (by simp), fun h => absurd h.1 hs⟩,
      ⟨fun h => absurd h (by simp), fun h => absurd h.1 hs⟩⟩

/-- C6 amended.  On adjacent notes, `_detect_techniques` tags hammer-on
exactly when the string is unchanged, the fret increases, the *start-time*
difference (not the end-to-start gap) is below 100 ms and the velocity
strictly drops, and pull-off under the same condition with the fret
decreasing; with a start-time gap of 510 ms the spec's fret-5-then-3
scenario is left NORMAL.  (The `tab_renderer` variant instead uses an
end-to-start gap below 50 ms and no velocity condition.) -/
theorem c6_technique_amended (a b : TabNote)
    (ha : a.technique = .NORMAL) (hb : b.technique = .NORMAL) :
    ((detectTechniques [a, b]).map TabNote.technique = [.NORMAL, .HAMMER_ON] ↔
      (a.string = b.string ∧ a.fret < b.fret ∧ b.start_time - a.start_time < 1/10 ∧
        b.velocity < a.velocity)) ∧
    ((detectTechniques [a, b]).map TabNote.technique = [.NORMAL, .PULL_OFF] ↔
      (a.string = b.string ∧ b.fret < a.fret ∧ b.start_time - a.start_time < 1/10 ∧
        b.velocity < a.velocity)) := by
  have hd : (detectTechniques [a, b]).map TabNote.technique
      = [a.technique, (classifyTechnique a b).technique] := rfl
  rw [hd, ha]
  have h := classifyTechnique_hammer a b hb
  constructor
  · rw [← h.1]
    simp
  · rw [← h.2]
    simp

/-- Witness for the amended C6: spec §8 determinism example — string 3,
fret 5 then fret 7, 30 ms apart, lower second velocity is a hammer-on. -/
theorem c6_technique_amended_witness :
    ((detectTechniques [⟨3, 5, 0, 1/2, .NORMAL, 100, []⟩, ⟨3, 7, 3/100, 1/2, .NORMAL, 80, []⟩]).map
        TabNote.technique = [.NORMAL, .HAMMER_ON] ↔
      ((3 : ℕ) = 3 ∧ (5 : ℤ) < 7 ∧ (3/100 : ℚ) - 0 < 1/10 ∧ (80 : ℤ) < 100)) ∧
    ((detectTechniques [⟨3, 5, 0, 1/2, .NORMAL, 100, []⟩, ⟨3, 7, 3/100, 1/2, .NORMAL, 80, []⟩]).map
        TabNote.technique = [.NORMAL, .PULL_OFF] ↔
      ((3 : ℕ) = 3 ∧ (7 : ℤ) < 5 ∧ (3/100 : ℚ) - 0 < 1/10 ∧ (80 : ℤ) < 100)) :=
  c6_technique_amended ⟨3, 5, 0, 1/2, .NORMAL, 100, []⟩ ⟨3, 7, 3/100, 1/2, .NORMAL, 80, []⟩
    rfl rfl

instance : Inhabited TabNote :=
  ⟨{ string := 1, fret := 0, start_time := 0, duration := 0 }⟩

/-- `sorted(tab_notes, key=lambda n: n.start_time)`: a stable sort by
start time (insertion sort with `≤` keeps the original relative order of
equal keys, like Python's `sorted`). -/
def sortByStart (l : List TabNote) : List TabNote :=
  l.insertionSort (fun a b => a.start_time ≤ b.start_time)

/-- Grouping loop of `MidiToTabConverter._detect_chords`: a note joins the
current group when the group is empty or the note starts within
`time_threshold = 0.05` of the *last* group member; otherwise the group is
flushed (kept only when it has at least 3 notes). -/
def groupSimultaneousAux : List TabNote → List TabNote → List (List TabNote)
  | [], cur => if 3 ≤ cur.length then [cur] else []
  | n :: rest, cur =>
    if cur = [] ∨ |n.start_time - (cur.getLastD n).start_time| < 1/20 then
      groupSimultaneousAux rest (cur ++ [n])
    else if 3 ≤ cur.length then
      cur :: groupSimultaneousAux rest [n]
    else
      groupSimultaneousAux rest [n]

def groupSimultaneous (tabNotes : List TabNote) : List (List TabNote) :=
  groupSimultaneousAux (sortByStart tabNotes) []

/-- `chord_patterns` of `_identify_chord`, in Python dict order. -/
def chordPatterns : List (String × List ℤ) :=
  [("major", [0, 4, 7]), ("minor", [0, 3, 7]), ("7", [0, 4, 7, 10]),
    ("maj7", [0, 4, 7, 11]), ("m7", [0, 3, 7, 10]), ("sus2", [0, 2, 7]),
    ("sus4", [0, 5, 7]), ("dim", [0, 3, 6]), ("aug", [0, 4, 8])]

/-- The note-name table of `_identify_chord` (pitch classes 0–11 in
semitone order). -/
def noteNames : List String :=
  ["C", "C#"] ++ ["D", "D#"] ++ ["E", "F", "F#"] ++ ["G", "G#"] ++ ["A", "A#", "B"]

/-- Inner loop of `_identify_chord`: first chord type whose transposed
pattern is a subset of the pitch classes. -/
def matchTypeAt (pcs : List ℤ) (root : ℕ) : List (String × List ℤ) → Option String
  | [] => none
  | (tname, pattern) :: rest =>
    if pattern.all (fun i => decide ((((root : ℤ) + i) % 12) ∈ pcs)) then some tname
    else matchTypeAt pcs root rest

/-- Outer loop of `_identify_chord`: `for root_pc in range(12)`. -/
def findRootTypeAux (pcs : List ℤ) : List ℕ → Option (ℕ × String)
  | [] => none
  | r :: rs =>
    match matchTypeAt pcs r chordPatterns with
    | some t => some (r, t)
    | none => findRootTypeAux pcs rs

/-- `MidiToTabConverter._load_chord_shapes`. -/
def chordShapes : List (String × List (String × List (ℕ × ℤ))) :=
  [("Cmajor", [("open", [(2, 3), (3, 2), (5, 1)])]),
    ("Gmajor", [("open", [(1, 3), (2, 3), (6, 3)])]),
    ("Dmajor", [("open", [(1, 2), (2, 3), (3, 2)])]),
    ("Aminor", [("open", [(2, 2), (3, 2), (4, 1)])]),
    ("Eminor", [("open", [(3, 2), (4, 2)])])]

/-- `self.chord_shapes.get(key, {})`. -/
def lookupShapes (key : String) : List (String × List (ℕ × ℤ)) :=
  ((chordShapes.find? (fun kv => decide (kv.1 = key))).map Prod.snd).getD []

/-- Shape loop of `_find_chord_shape`: first named shape whose position
set is a subset of the group's positions. -/
def findShapeIn (positions : List (ℕ × ℤ)) :
    List (String × List (ℕ × ℤ)) → Option String
  | [] => none
  | (name, sps) :: rest =>
    if sps.all (fun p => decide (p ∈ positions)) then some name
    else findShapeIn positions rest

/-- `MidiToTabConverter._find_chord_shape`. -/
def findChordShape (tabNotes : List TabNote) (root : String) (ctype : String) :
    Option String :=
  match findShapeIn (tabNotes.map (fun n => (n.string, n.fret)))
      (lookupShapes (root ++ ctype)) with
  | some name => some name
  | none =>
    match (tabNotes.filter (fun n => decide (0 < n.fret))).map TabNote.fret with
    | [] => none
    | f :: fs =>
      if fs.foldl min f = fs.foldl max f then
        some ("Barre " ++ toString (fs.foldl min f))
      else none

/-- `MidiToTabConverter._identify_chord`. -/
def identifyChord (pitches : List ℤ) (tabNotes : List TabNote) : Option ChordIdent :=
  match findRootTypeAux (pitches.map (fun p => p % 12)) (List.range 12) with
  | none => none
  | some (rootPc, ctype) =>
    some { root := noteNames.getD rootPc ""
           type := ctype
           shape := findChordShape tabNotes (noteNames.getD rootPc "") ctype
           pitches := pitches }

/-- Python `max` over a non-empty list of rationals. -/
def pyMaxQ (x : ℚ) (xs : List ℚ) : ℚ := xs.foldl max x

/-- Analysis of one simultaneity group in `_detect_chords`: the group's
pitches come from the capo-adjusted tuning (`self.tuning[n.string - 1] +
n.fret`); a chord dict is emitted exactly when `_identify_chord` matches a
pattern.  Groups are non-empty by construction. -/
def chordOfGroup (cfg : TabConfig) (group : List TabNote) : Option ChordDict :=
  match group with
  | [] => none
  | g0 :: gs =>
    match identifyChord
        ((g0 :: gs).map (fun n => (effectiveTuning cfg).getD (n.string - 1) 0 + n.fret))
        (g0 :: gs) with
    | none => none
    | some ci =>
      some { time := g0.start_time
             duration := pyMaxQ g0.duration (gs.map TabNote.duration)
             chord := ci
             tab_positions := (g0 :: gs).map (fun n => (n.string, n.fret)) }

/-- `MidiToTabConverter._detect_chords`. -/
def detectChords (cfg : TabConfig) (tabNotes : List TabNote) : List ChordDict :=
  (groupSimultaneous tabNotes).filterMap (chordOfGroup cfg)

/-- Three simultaneous notes, all on code-string 6 (open E), sounding an
E-major triad (pitches 64, 68, 71). -/
def c7SameString : List TabNote :=
  [⟨6, 0, 0, 1, .NORMAL, 80, []⟩, ⟨6, 4, 0, 1, .NORMAL, 80, []⟩,
    ⟨6, 7, 0, 1, .NORMAL, 80, []⟩]

/-- C7 counterexample.  Three simultaneous notes on the *same* string are
emitted as a chord (the code never checks that the strings are distinct),
refuting "emitted exactly when it has at least `min_chord_size` members on
*distinct* strings". -/
theorem c7_chord_detector_counterexample :
    (detectChords stdConfig c7SameString).map ChordDict.tab_positions
      = [[(6, 0), (6, 4), (6, 7)]] ∧
    (∀ n ∈ c7SameString, n.string = 6) ∧
    (∀ n ∈ c7SameString, n.start_time = 0) := by
  refine ⟨?_, by decide, by intro n hn; fin_cases hn <;> rfl⟩
  norm_num [detectChords, groupSimultaneous, sortByStart, List.insertionSort,
    List.orderedInsert, groupSimultaneousAux, chordOfGroup, identifyChord,
    findRootTypeAux, matchTypeAt, chordPatterns, List.range, List.range.loop,
    findChordShape, findShapeIn, lookupShapes, chordShapes, noteNames,
    effectiveTuning, stdConfig, c7SameString, pyMaxQ, List.filterMap_cons,
    List.filterMap_nil, List.find?, List.getD, List.getLastD, List.foldl]

theorem groupSimultaneousAux_min_size :
    ∀ (l cur : List TabNote), ∀ g ∈ groupSimultaneousAux l cur, 3 ≤ g.length := by
  intro l
  induction l with
  | nil =>
    intro cur g hg
    simp only [groupSimultaneousAux] at hg
    by_cases hc : 3 ≤ cur.length
    · rw [if_pos hc] at hg
      simp only [List.mem_singleton] at hg
      subst hg
      exact hc
    · rw [if_neg hc] at hg
      simp at hg
  | cons n rest ih =>
    intro cur g hg
    simp only [groupSimultaneousAux] at hg
    by_cases h1 : cur = [] ∨ |n.start_time - (cur.getLastD n).start_time| < 1/20
    · rw [if_pos h1] at hg
      exact ih _ g hg
    · rw [if_neg h1] at hg
      by_cases h2 : 3 ≤ cur.length
      · rw [if_pos h2] at hg
        rcases List.mem_cons.mp hg with rfl | hg
        · exact h2
        · exact ih _ g hg
      · rw [if_neg h2] at hg
        exact ih _ g hg

/-- Three simultaneous notes on three distinct strings sounding a C-major
triad (pitches 60, 64, 67), spec scenario 3. -/
def c7CMajor : List TabNote :=
  [⟨3, 10, 0, 1, .NORMAL, 80, []⟩, ⟨5, 5, 0, 1, .NORMAL, 80, []⟩,
    ⟨6, 3, 0, 1, .NORMAL, 80, []⟩]

/-- Three simultaneous notes on three distinct strings sounding the
chromatic cluster 60, 61, 62, which matches no chord pattern. -/
def c7Cluster : List TabNote :=
  [⟨3, 10, 0, 1, .NORMAL, 80, []⟩, ⟨5, 2, 0, 1, .NORMAL, 80, []⟩,
    ⟨4, 7, 0, 1, .NORMAL, 80, []⟩]

/-- C7 amended.  `_detect_chords` groups by chained 50 ms start-time
proximity and analyses only groups of at least 3 members (so no two-note
group is ever emitted), with *no* distinct-string requirement; a group is
emitted exactly when its pitch classes contain a known chord pattern:
three simultaneous distinct-string notes sounding a C-major triad yield
exactly one chord containing all three, while a chromatic cluster on three
distinct strings yields none. -/
theorem c7_chord_detector_amended (cfg : TabConfig) (tabNotes : List TabNote) :
    (∀ c ∈ detectChords cfg tabNotes, 3 ≤ c.tab_positions.length) ∧
    (detectChords stdConfig c7CMajor).map ChordDict.tab_positions
      = [[(3, 10), (5, 5), (6, 3)]] ∧
    detectChords stdConfig c7Cluster = [] := by
  refine ⟨?_, ?_, ?_⟩
  · intro c hc
    rcases List.mem_filterMap.mp hc with ⟨g, hg, hcg⟩
    have h3 := groupSimultaneousAux_min_size (sortByStart tabNotes) [] g hg
    match g, hcg with
    | g0 :: gs, hcg =>
      simp only [chordOfGroup] at hcg
      rcases hid : identifyChord
          ((g0 :: gs).map (fun n => (effectiveTuning cfg).getD (n.string - 1) 0 + n.fret))
          (g0 :: gs) with _ | ci
      · rw [hid] at hcg
        simp at hcg
      · rw [hid] at hcg
        simp only [Option.some.injEq] at hcg
        rw [← hcg]
        simpa using h3
  · norm_num [detectChords, groupSimultaneous, sortByStart, List.insertionSort,
      List.orderedInsert, groupSimultaneousAux, chordOfGroup, identifyChord,
      findRootTypeAux, matchTypeAt, chordPatterns, List.range, List.range.loop,
      findChordShape, findShapeIn, lookupShapes, chordShapes, noteNames,
      effectiveTuning, stdConfig, c7CMajor, pyMaxQ, List.filterMap_cons,
      List.filterMap_nil, List.find?, List.getD, List.getLastD, List.foldl]
  · norm_num [detectChords, groupSimultaneous, sortByStart, List.insertionSort,
      List.orderedInsert, groupSimultaneousAux, chordOfGroup, identifyChord,
      findRootTypeAux, matchTypeAt, chordPatterns, List.range, List.range.loop,
      findChordShape, findShapeIn, lookupShapes, chordShapes, noteNames,
      effectiveTuning, stdConfig, c7Cluster, pyMaxQ, List.filterMap_cons,
      List.filterMap_nil, List.find?, List.getD, List.getLastD, List.foldl]

/-- The chord dict emitted for `c7CMajor`. -/
def c7EmittedChord : ChordDict :=
  ⟨0, 1, ⟨"C", "major", none, [60, 64, 67]⟩, [(3, 10), (5, 5), (6, 3)]⟩

/-- Witness for the amended C7, applying the size bound to the concrete
emitted C-major chord. -/
theorem c7_chord_detector_amended_witness :
    3 ≤ c7EmittedChord.tab_positions.length := by
  refine (c7_chord_detector_amended stdConfig c7CMajor).1 c7EmittedChord ?_
  have hd : detectChords stdConfig c7CMajor = [c7EmittedChord] := by
    norm_num [detectChords, groupSimultaneous, sortByStart, List.insertionSort,
      List.orderedInsert, groupSimultaneousAux, chordOfGroup, identifyChord,
      findRootTypeAux, matchTypeAt, chordPatterns, List.range, List.range.loop,
      findChordShape, findShapeIn, lookupShapes, chordShapes, noteNames,
      effectiveTuning, stdConfig, c7CMajor, pyMaxQ, c7EmittedChord,
      List.filterMap_cons, List.filterMap_nil, List.find?, List.getD,
      List.getLastD, List.foldl]
  rw [hd]
  exact List.mem_singleton.mpr rfl

end Midi

namespace Tab

/-- `tab_converter.PlayingTechnique`. -/
inductive PlayingTechnique where
  | NORMAL
  | HAMMER_ON
  | PULL_OFF
  | SLIDE_UP
  | SLIDE_DOWN
  | BEND
  | VIBRATO
  | PALM_MUTE
  | HARMONIC
  | TAP
  | DEAD_NOTE
deriving DecidableEq, Repr

/-- `tab_converter.GuitarNote`. -/
structure GuitarNote where
  pitch : ℤ
  start_time : ℚ
  end_time : ℚ
  string : ℕ
  fret : ℤ
  velocity : ℤ
  techniques : List PlayingTechnique := []
  is_chord_tone : Bool := false
  chord_shape : Option String := none
  difficulty : ℚ := 0
deriving DecidableEq, Repr

instance : Inhabited GuitarNote :=
  ⟨{ pitch := 0, start_time := 0, end_time := 0, string := 1, fret := 0, velocity := 0 }⟩

/-- `tab_converter.TabConfiguration`. -/
structure TabConfiguration where
  tuning : List ℤ := [40, 45, 50, 55, 59, 64]
  capo_position : ℤ := 0
  max_fret_span : ℤ := 4
  prefer_open_strings : Bool := true
  prefer_low_positions : Bool := true
  max_position : ℤ := 12
  allow_impossible_stretches : Bool := false
  detect_chords : Bool := true
  optimize_fingering : Bool := true
  include_techniques : Bool := true
  difficulty_threshold : ℚ := 7/10
deriving Repr

/-- One input MIDI note dict (`pitch`, `start`, `end`, `velocity`). -/
structure NoteDict where
  pitch : ℤ
  start : ℚ
  stop : ℚ
  velocity : ℤ := 80
deriving DecidableEq, Repr

/-- `TabConverter._calculate_difficulty`. -/
def calculateDifficulty (string : ℕ) (fret : ℤ) : ℚ :=
  if fret = 0 then 0
  else
    let d1 : ℚ := (fret : ℚ) / 24 * (3/10)
    let d2 : ℚ := if 12 < fret then ((fret - 12 : ℤ) : ℚ) / 12 * (3/10) else 0
    let d3 : ℚ := if string = 1 ∨ string = 6 then 1/10 else 0
    let d4 : ℚ := if string ≤ 3 ∧ 15 < fret then 1/5 else 0
    min (d1 + d2 + d3 + d4) 1

/-- `TabConverter._get_hand_position`. -/
def getHandPosition (fret : ℤ) : ℤ :=
  if fret = 0 then 0
  else if fret ≤ 4 then 1
  else if fret ≤ 7 then 5
  else if fret ≤ 10 then 8
  else if fret ≤ 14 then 12
  else 15

/-- One candidate dict built by `TabConverter._find_positions`. -/
structure Position where
  string : ℕ
  fret : ℤ
  difficulty : ℚ
  is_open : Bool
  position : ℤ
deriving DecidableEq, Repr

/-- Loop of `TabConverter._find_positions` (the per-pitch cache is pure
memoization and has no observable effect). -/
def findPositionsFrom (pitch : ℤ) : List ℤ → ℕ → List Position
  | [], _ => []
  | openPitch :: rest, i =>
    let fret := pitch - openPitch
    if 0 ≤ fret ∧ fret ≤ 24 then
      { string := i + 1
        fret := fret
        difficulty := calculateDifficulty (i + 1) fret
        is_open := decide (fret = 0)
        position := getHandPosition fret } :: findPositionsFrom pitch rest (i + 1)
    else
      findPositionsFrom pitch rest (i + 1)

/-- `TabConverter._find_positions`. -/
def findPositions (cfg : TabConfiguration) (pitch : ℤ) : List Position :=
  findPositionsFrom pitch cfg.tuning 0

/-- `TabConverter._filter_positions`: drop candidates with
`fret > max_position` (unless open) or `difficulty > difficulty_threshold`. -/
def filterPositions (cfg : TabConfiguration) (positions : List Position) : List Position :=
  positions.filter (fun pos =>
    decide (¬(cfg.max_position < pos.fret ∧ pos.is_open = false) ∧
      pos.difficulty ≤ cfg.difficulty_threshold))

/-- Python's stable descending sort followed by taking the head: the first
element attaining the maximal key. -/
def pyMaxBy {α β : Type} [LinearOrder β] (f : α → β) : α → List α → α
  | x, [] => x
  | x, y :: ys =>
    let m := pyMaxBy f y ys
    if f m ≤ f x then x else m

theorem pyMaxBy_mem {α β : Type} [LinearOrder β] (f : α → β) (x : α) (xs : List α) :
    pyMaxBy f x xs ∈ x :: xs := by
  induction xs generalizing x with
  | nil => simp [pyMaxBy]
  | cons y ys ih =>
    simp only [pyMaxBy]
    by_cases h : f (pyMaxBy f y ys) ≤ f x
    · rw [if_pos h]
      exact List.mem_cons_self _ _
    · rw [if_neg h]
      exact List.mem_cons_of_mem _ (ih y)

/-- Score of one candidate in `TabConverter._select_optimal_position`
(`previous_notes` is the list of notes already placed in the measure). -/
def positionScore (cfg : TabConfiguration) (previousNotes : List GuitarNote)
    (pos : Position) : ℚ :=
  let s1 : ℚ := if cfg.prefer_open_strings = true ∧ pos.is_open = true then 2 else 0
  let s2 : ℚ := if cfg.prefer_low_positions = true then ((12 - pos.fret : ℤ) : ℚ) / 12 else 0
  let s3 : ℚ :=
    match previousNotes.getLast? with
    | none => 0
    | some last =>
      -((|pos.position - getHandPosition last.fret| : ℤ) : ℚ) * (1/2)
        - ((|(pos.string : ℤ) - (last.string : ℤ)| : ℚ) * (1/5))
  s1 + s2 - pos.difficulty * 2 + s3

/-- `TabConverter._select_optimal_position`: `None` on an empty candidate
list, the single candidate when there is only one, otherwise the candidate
with the highest score (stable sort keeps the first maximum). -/
def selectOptimalPositionT (cfg : TabConfiguration) (positions : List Position)
    (previousNotes : List GuitarNote) : Option Position :=
  match positions with
  | [] => none
  | [p] => some p
  | p :: ps => some (pyMaxBy (positionScore cfg previousNotes) p ps)

/-- `TabConverter._convert_note`: capo-adjust the pitch, resolve, filter,
select against the measure's previous notes, and build the `GuitarNote`
(empty result plus a logged warning when no position survives). -/
def convertNote (cfg : TabConfiguration) (measureNotes : List GuitarNote)
    (nd : NoteDict) : List GuitarNote :=
  match selectOptimalPositionT cfg
      (filterPositions cfg (findPositions cfg (nd.pitch - cfg.capo_position)))
      measureNotes with
  | none => []
  | some opt =>
    [{ pitch := nd.pitch
       start_time := nd.start
       end_time := nd.stop
       string := opt.string
       fret := opt.fret
       velocity := nd.velocity
       difficulty := opt.difficulty }]

/-- Configuration of the C3 counterexample: default settings except
`difficulty_threshold = 0`. -/
def c3Config : TabConfiguration := { difficulty_threshold := 0 }

/-- C3 counterexample.  Pitch 41 is playable (candidate `(1, 1)`), but
with `difficulty_threshold = 0` the preference filter excludes every
candidate and `_convert_note` drops the note (returns `[]` after a logged
warning) instead of falling back to the unfiltered candidate set. -/
theorem c3_filter_fallback_counterexample :
    findPositions c3Config (41 - c3Config.capo_position) ≠ [] ∧
    filterPositions c3Config (findPositions c3Config (41 - c3Config.capo_position)) = [] ∧
    convertNote c3Config [] ⟨41, 0, 1, 80⟩ = [] := by
  refine ⟨?_, ?_, ?_⟩ <;>
    norm_num [convertNote, selectOptimalPositionT, filterPositions, findPositions,
      findPositionsFrom, calculateDifficulty, getHandPosition, c3Config, List.filter]

theorem selectOptimalPositionT_mem (cfg : TabConfiguration) (positions : List Position)
    (previousNotes : List GuitarNote) (p : Position)
    (h : selectOptimalPositionT cfg positions previousNotes = some p) :
    p ∈ positions := by
  match positions, h with
  | [q], h =>
    simp only [selectOptimalPositionT, Option.some.injEq] at h
    subst h
    exact List.mem_singleton.mpr rfl
  | q :: q2 :: qs, h =>
    simp only [selectOptimalPositionT, Option.some.injEq] at h
    subst h
    exact pyMaxBy_mem _ _ _

/-- C3 amended.  There is no fallback: when the `max_position` /
`difficulty_threshold` filters exclude every candidate, `_convert_note`
drops the note (empty result, warning logged) exactly as for an
unreachable pitch; and every note it does emit is placed on a position
taken from the *filtered* candidate set. -/
theorem c3_filter_fallback_amended (cfg : TabConfiguration)
    (measureNotes : List GuitarNote) (nd : NoteDict)
    (hempty : filterPositions cfg (findPositions cfg (nd.pitch - cfg.capo_position)) = []) :
    convertNote cfg measureNotes nd = [] ∧
    ∀ cfg2 nd2 (mn2 : List GuitarNote), ∀ g ∈ convertNote cfg2 mn2 nd2,
      ∃ p ∈ filterPositions cfg2 (findPositions cfg2 (nd2.pitch - cfg2.capo_position)),
        g.string = p.string ∧ g.fret = p.fret := by
  constructor
  · rw [convertNote, hempty]
    rfl
  · intro cfg2 nd2 mn2 g hg
    rw [convertNote] at hg
    rcases hsel : selectOptimalPositionT cfg2
        (filterPositions cfg2 (findPositions cfg2 (nd2.pitch - cfg2.capo_position))) mn2 with
      _ | p
    · rw [hsel] at hg
      simp at hg
    · rw [hsel] at hg
      simp only [List.mem_singleton] at hg
      subst hg
      exact ⟨p, selectOptimalPositionT_mem _ _ _ _ hsel, rfl, rfl⟩

/-- Witness for the amended C3 at the concrete pitch-41 example. -/
theorem c3_filter_fallback_amended_witness :
    convertNote c3Config [] ⟨41, 0, 1, 80⟩ = [] ∧
    ∀ cfg2 nd2 (mn2 : List GuitarNote), ∀ g ∈ convertNote cfg2 mn2 nd2,
      ∃ p ∈ filterPositions cfg2 (findPositions cfg2 (nd2.pitch - cfg2.capo_position)),
        g.string = p.string ∧ g.fret = p.fret :=
  c3_filter_fallback_amended c3Config [] ⟨41, 0, 1, 80⟩
    (by norm_num [filterPositions, findPositions, findPositionsFrom,
      calculateDifficulty, getHandPosition, c3Config, List.filter])

/-- `measure_duration` of `TabConverter._group_into_measures`. -/
def measureDurationT (beats : ℕ) (tempo : ℚ) : ℚ :=
  (beats : ℚ) * (60 / tempo)

/-- `sorted(notes, key=lambda n: n['start'])` (stable). -/
def sortDictsByStart (l : List NoteDict) : List NoteDict :=
  l.insertionSort (fun a b => a.start ≤ b.start)

/-- Loop of `TabConverter._group_into_measures`: a boundary-crossing note
flushes the current measure (if non-empty) and advances `measure_start`
by exactly one duration before being appended to the fresh measure. -/
def groupIntoMeasuresAux (d : ℚ) : List NoteDict → List NoteDict → ℚ → List (List NoteDict)
  | [], cur, _ => if cur = [] then [] else [cur]
  | n :: rest, cur, mst =>
    if mst + d ≤ n.start then
      if cur = [] then groupIntoMeasuresAux d rest [n] (mst + d)
      else cur :: groupIntoMeasuresAux d rest [n] (mst + d)
    else
      groupIntoMeasuresAux d rest (cur ++ [n]) mst

/-- `TabConverter._group_into_measures`. -/
def groupIntoMeasures (notes : List NoteDict) (timeSig : ℕ × ℕ) (tempo : ℚ) :
    List (List NoteDict) :=
  if notes = [] then []
  else groupIntoMeasuresAux (measureDurationT timeSig.1 tempo) (sortDictsByStart notes) [] 0

/-- `sorted(notes, key=lambda n: n.start_time)` (stable). -/
def sortNotesByStart (l : List GuitarNote) : List GuitarNote :=
  l.insertionSort (fun a b => a.start_time ≤ b.start_time)

/-- `TabConverter._group_by_time_proximity` with its default threshold
0.5 s. -/
def groupByProximityAux : List GuitarNote → List GuitarNote → List (List GuitarNote)
  | [], cur => if cur = [] then [] else [cur]
  | n :: rest, cur =>
    match cur.getLast? with
    | none => groupByProximityAux rest [n]
    | some last =>
      if n.start_time - last.end_time ≤ 1/2 then groupByProximityAux rest (cur ++ [n])
      else cur :: groupByProximityAux rest [n]

def groupByTimeProximity (notes : List GuitarNote) : List (List GuitarNote) :=
  groupByProximityAux (sortNotesByStart notes) []

/-- Python `int()` (truncation toward zero) on a rational. -/
def pyInt (q : ℚ) : ℤ :=
  if 0 ≤ q then ⌊q⌋ else -⌊-q⌋

/-- The `break` loop of `_optimize_group_fingering`: the first alternative
whose hand position is within `max_fret_span` of the target. -/
def firstAltWithin (span target : ℤ) : List Position → Option Position
  | [] => none
  | alt :: rest =>
    if |getHandPosition alt.fret - target| ≤ span then some alt
    else firstAltWithin span target rest

/-- Per-note body of `TabConverter._optimize_group_fingering`.  The
alternatives are taken from `_find_positions(note.pitch)` — the *raw*
pitch, with no capo adjustment. -/
def optimizeNoteFingering (cfg : TabConfiguration) (target : ℤ)
    (note : GuitarNote) : GuitarNote :=
  if cfg.max_fret_span < |getHandPosition note.fret - target| then
    match firstAltWithin cfg.max_fret_span target (findPositions cfg note.pitch) with
    | some alt =>
      { note with string := alt.string, fret := alt.fret, difficulty := alt.difficulty }
    | none => note
  else note

/-- `TabConverter._optimize_group_fingering`: the target hand position is
computed once from the truncated average fret, then each note too far from
it is moved to its first in-range alternative. -/
def optimizeGroupFingering (cfg : TabConfiguration) (notes : List GuitarNote) :
    List GuitarNote :=
  notes.map (optimizeNoteFingering cfg
    (getHandPosition (pyInt ((((notes.map GuitarNote.fret).sum : ℤ) : ℚ) / (notes.length : ℚ)))))

/-- `TabConverter._optimize_measure_fingering`.  The measure's notes are
already in chronological order inside the pipeline, so regrouping by
proximity and re-flattening models the in-place mutation. -/
def optimizeMeasureFingering (cfg : TabConfiguration) (notes : List GuitarNote) :
    List GuitarNote :=
  if notes.length < 2 then notes
  else ((groupByTimeProximity notes).map (fun g =>
    if 1 < g.length then optimizeGroupFingering cfg g else g)).flatten

/-- Technique tags appended to one note by `TabConverter._detect_techniques`,
given its sorted-order neighbours (hammer/pull from the predecessor,
slides toward the successor, palm mute and harmonic from the note alone). -/
def detectTechniquesNote (prev : Option GuitarNote) (cur : GuitarNote)
    (nxt : Option GuitarNote) : GuitarNote :=
  let t1 : List PlayingTechnique :=
    match prev with
    | some p =>
      if cur.string = p.string ∧ |cur.start_time - p.end_time| < 1/20 then
        if p.fret < cur.fret then [.HAMMER_ON]
        else if cur.fret < p.fret then [.PULL_OFF]
        else []
      else []
    | none => []
  let t2 : List PlayingTechnique :=
    match nxt with
    | some nx =>
      if cur.string = nx.string ∧ nx.start_time ≤ cur.end_time ∧ 2 ≤ |cur.fret - nx.fret| then
        if cur.fret < nx.fret then [.SLIDE_UP] else [.SLIDE_DOWN]
      else []
    | none => []
  let t3 : List PlayingTechnique := if cur.velocity < 40 then [.PALM_MUTE] else []
  let t4 : List PlayingTechnique :=
    if cur.fret ∈ ([12, 7, 5, 4, 3] : List ℤ) ∧ 100 < cur.velocity then [.HARMONIC] else []
  { cur with techniques := cur.techniques ++ t1 ++ t2 ++ t3 ++ t4 }

def mapNeighborsAux (f : Option GuitarNote → GuitarNote → Option GuitarNote → GuitarNote) :
    Option GuitarNote → List GuitarNote → List GuitarNote
  | _, [] => []
  | prev, [c] => [f prev c none]
  | prev, c :: nx :: rest => f prev c (some nx) :: mapNeighborsAux f (some c) (nx :: rest)

/-- `TabConverter._detect_techniques` over one measure. -/
def detectTechniquesT (notes : List GuitarNote) : List GuitarNote :=
  mapNeighborsAux detectTechniquesNote none (sortNotesByStart notes)

/-- Conversion of one measure inside `TabConverter.convert_midi_to_tab`:
each note is converted against the measure's already-placed notes, then
the fingering-optimization and technique passes run.
(`_detect_chord_groups` / `_assign_chord_fingerings` only annotate the
input dicts with `chord_shape` keys that `_convert_note` never reads, so
they do not affect the produced notes.) -/
def convertMeasure (cfg : TabConfiguration) (measureNotes : List NoteDict) :
    List GuitarNote :=
  let conv := measureNotes.foldl (fun acc nd => acc ++ convertNote cfg acc nd) []
  let opt := if cfg.optimize_fingering then optimizeMeasureFingering cfg conv else conv
  if cfg.include_techniques then detectTechniquesT opt else opt

/-- `TabConverter.convert_midi_to_tab`: note content of the produced
measures (measure numbers, time signature and tempo metadata omitted). -/
def convertMidiToTab (cfg : TabConfiguration) (midiNotes : List NoteDict)
    (timeSig : ℕ × ℕ) (tempo : ℚ) : List (List GuitarNote) :=
  (groupIntoMeasures midiNotes timeSig tempo).map (convertMeasure cfg)

/-- Configuration of the C9 failing input: default settings with the capo
at fret 2. -/
def c9Config : TabConfiguration := { capo_position := 2 }

/-- C9 failing input: pitch 52 at 0.0–0.4 s and pitch 78 at 0.5–0.9 s. -/
def c9Notes : List NoteDict := [⟨52, 0, 2/5, 80⟩, ⟨78, 1/2, 9/10, 80⟩]

/-- C9.  With capo 2, `convert_midi_to_tab` first places pitch 52 on the
open third string (50 + 2 + 0 = 52, correct) and pitch 78 on (6, 12)
(64 + 2 + 12 = 78, correct), but the fingering-optimization pass then
moves the first note to string 2, fret 7 using alternatives from
`_find_positions(note.pitch)` *without* the capo adjustment:
45 + 2 + 7 = 54 ≠ 52, so pitch preservation is violated. -/
theorem c9_pitch_preservation_bug :
    (convertMidiToTab c9Config c9Notes (4, 4) 120).map
      (fun ms => ms.map (fun n => (n.pitch, n.string, n.fret)))
      = [[(52, 2, 7), (78, 6, 12)]] ∧
    c9Config.tuning.getD (2 - 1) 0 + c9Config.capo_position + 7 ≠ (52 : ℤ) := by
  constructor
  · norm_num [convertMidiToTab, groupIntoMeasures, measureDurationT, sortDictsByStart,
      List.insertionSort, List.orderedInsert, groupIntoMeasuresAux, convertMeasure,
      List.foldl, convertNote, selectOptimalPositionT, filterPositions, findPositions,
      findPositionsFrom, calculateDifficulty, getHandPosition, positionScore, pyMaxBy,
      List.filter, optimizeMeasureFingering, groupByTimeProximity, sortNotesByStart,
      groupByProximityAux, optimizeGroupFingering, optimizeNoteFingering, firstAltWithin,
      pyInt, detectTechniquesT, mapNeighborsAux, detectTechniquesNote, c9Config, c9Notes,
      Function.comp, List.cons_ne_nil]
  · norm_num [c9Config]

/-- `ChordShapeDetector.COMMON_SHAPES`, in Python dict order. -/
def COMMON_SHAPES : List (String × List (ℕ × ℤ)) :=
  [("C", [(1, 0), (2, 1), (3, 0), (4, 2), (5, 3)]),
    ("G", [(1, 3), (2, 0), (3, 0), (4, 0), (5, 2), (6, 3)]),
    ("D", [(1, 2), (2, 3), (3, 2), (4, 0)]),
    ("A", [(1, 0), (2, 2), (3, 2), (4, 2), (5, 0)]),
    ("E", [(1, 0), (2, 0), (3, 1), (4, 2), (5, 2), (6, 0)]),
    ("F", [(1, 1), (2, 1), (3, 2), (4, 3), (5, 3), (6, 1)]),
    ("Am", [(1, 0), (2, 1), (3, 2), (4, 2), (5, 0)]),
    ("Em", [(1, 0), (2, 0), (3, 0), (4, 2), (5, 2), (6, 0)]),
    ("Dm", [(1, 1), (2, 3), (3, 2), (4, 0)]),
    ("G7", [(1, 1), (2, 0), (3, 0), (4, 0), (5, 2), (6, 3)]),
    ("C7", [(1, 0), (2, 1), (3, 3), (4, 2), (5, 3)]),
    ("D7", [(1, 2), (2, 1), (3, 2), (4, 0)])]

/-- Python `min` over a list of ints, `none` modelling the `ValueError`
raised on an empty sequence. -/
def pyMinInt : List ℤ → Option ℤ
  | [] => none
  | x :: xs => some (xs.foldl min x)

/-- `ChordShapeDetector._matches_shape`; `none` models the `ValueError`
raised by `min(p[1] for p in positions if p[1] > 0)` when the group has no
fretted note (and likewise for the shape). -/
def matchesShape (positions shape : List (ℕ × ℤ)) : Option Bool :=
  if positions.length ≠ shape.length then some false
  else
    match pyMinInt ((positions.filter (fun p => decide (0 < p.2))).map Prod.snd) with
    | none => none
    | some minPos =>
      match pyMinInt ((shape.filter (fun s => decide (0 < s.2))).map Prod.snd) with
      | none => none
      | some minShape =>
        some (positions.all (fun pos =>
          decide (pos ∈ shape.map (fun sf =>
            (sf.1, if 0 < sf.2 then sf.2 + (minPos - minShape) else 0)))))

/-- Shape loop of `ChordShapeDetector.detect_chord_shape`; the outer
`Option` propagates a raised exception. -/
def detectChordShapeAux (positions : List (ℕ × ℤ)) :
    List (String × List (ℕ × ℤ)) → Option (Option String)
  | [] => some none
  | (name, shape) :: rest =>
    match matchesShape positions shape with
    | none => none
    | some true => some (some name)
    | some false => detectChordShapeAux positions rest

/-- `ChordShapeDetector.detect_chord_shape`: `some r` is a normal return
(`r` the optional shape name), `none` a raised `ValueError`. -/
def detectChordShape (notes : List GuitarNote) : Option (Option String) :=
  if notes.length < 3 then some none
  else detectChordShapeAux (notes.map (fun n => (n.string, n.fret))) COMMON_SHAPES

/-- Four notes that are all on open strings (every fret 0). -/
def c10OpenNotes : List GuitarNote :=
  [⟨40, 0, 1, 1, 0, 80, [], false, none, 0⟩, ⟨45, 0, 1, 2, 0, 80, [], false, none, 0⟩,
    ⟨50, 0, 1, 3, 0, 80, [], false, none, 0⟩, ⟨55, 0, 1, 4, 0, 80, [], false, none, 0⟩]

/-- C10 counterexample.  A group of four all-open notes reaches the
length-4 template "D", whose `_matches_shape` call evaluates
`min(p[1] for p in positions if p[1] > 0)` over an empty sequence and
raises `ValueError`: `detect_chord_shape` is not total. -/
theorem c10_detect_shape_counterexample :
    3 ≤ c10OpenNotes.length ∧ (∀ n ∈ c10OpenNotes, n.fret = 0) ∧
    detectChordShape c10OpenNotes = none := by
  refine ⟨by norm_num [c10OpenNotes], by intro n hn; fin_cases hn <;> rfl, ?_⟩
  norm_num [detectChordShape, detectChordShapeAux, matchesShape, pyMinInt,
    COMMON_SHAPES, c10OpenNotes, List.filter]

theorem pyMinInt_ne_none (l : List ℤ) (h : l ≠ []) : pyMinInt l ≠ none := by
  match l, h with
  | x :: xs, _ => simp [pyMinInt]

theorem matchesShape_ne_none_of_posfret (positions shape : List (ℕ × ℤ))
    (hpos : ∃ p ∈ positions, 0 < p.2) (hsh : ∃ s ∈ shape, 0 < s.2) :
    matchesShape positions shape ≠ none := by
  rw [matchesShape]
  by_cases hlen : positions.length ≠ shape.length
  · rw [if_pos hlen]
    simp
  · rw [if_neg hlen]
    rcases hpos with ⟨p, hp, hp2⟩
    have hp3 : p.2 ∈ (positions.filter (fun p => decide (0 < p.2))).map Prod.snd :=
      List.mem_map_of_mem _ (List.mem_filter.mpr ⟨hp, by simpa using hp2⟩)
    rcases hsh with ⟨s, hs, hs2⟩
    have hs3 : s.2 ∈ (shape.filter (fun s => decide (0 < s.2))).map Prod.snd :=
      List.mem_map_of_mem _ (List.mem_filter.mpr ⟨hs, by simpa using hs2⟩)
    rcases hm1 : pyMinInt ((positions.filter (fun p => decide (0 < p.2))).map Prod.snd) with
      _ | m1
    · exact absurd hm1 (pyMinInt_ne_none _ (List.ne_nil_of_mem hp3))
    · rcases hm2 : pyMinInt ((shape.filter (fun s => decide (0 < s.2))).map Prod.snd) with
        _ | m2
      · exact absurd hm2 (pyMinInt_ne_none _ (List.ne_nil_of_mem hs3))
      · simp [hm1, hm2]

theorem matchesShape_of_length_ne (positions shape : List (ℕ × ℤ))
    (h : positions.length ≠ shape.length) :
    matchesShape positions shape = some false := by
  rw [matchesShape, if_pos h]

theorem detectChordShapeAux_isSome (positions : List (ℕ × ℤ))
    (shapes : List (String × List (ℕ × ℤ)))
    (h : ∀ pr ∈ shapes, matchesShape positions pr.2 ≠ none) :
    (detectChordShapeAux positions shapes).isSome = true := by
  induction shapes with
  | nil => simp [detectChordShapeAux]
  | cons pr rest ih =>
    match pr with
    | (name, shape) =>
      simp only [detectChordShapeAux]
      rcases hms : matchesShape positions shape with _ | b
      · exact absurd hms (h (name, shape) (List.mem_cons_self _ _))
      · match b with
        | true => simp
        | false =>
          exact ih (fun q hq => h q (List.mem_cons_of_mem _ hq))

/-- C10 amended.  `detect_chord_shape` returns a shape name or `None`
without raising for every group that contains at least one fretted note
(fret > 0), and for every group whose size differs from all template sizes
(4, 5 and 6) — in particular for all-open groups of exactly three notes;
but an all-open group of four, five or six notes raises `ValueError`, so
the function is not total over its interface. -/
theorem c10_detect_shape_amended (notes : List GuitarNote)
    (h : (∃ n ∈ notes, 0 < n.fret) ∨
      (notes.length ≠ 4 ∧ notes.length ≠ 5 ∧ notes.length ≠ 6)) :
    (detectChordShape notes).isSome = true := by
  by_cases hlen : notes.length < 3
  · simp [detectChordShape, hlen]
  · rw [detectChordShape, if_neg hlen]
    apply detectChordShapeAux_isSome
    intro pr hpr
    rcases h with ⟨n, hn, hf⟩ | ⟨h4, h5, h6⟩
    · have hshapes : ∀ q ∈ COMMON_SHAPES, ∃ s ∈ q.2, 0 < s.2 := by decide
      exact matchesShape_ne_none_of_posfret _ _
        ⟨(n.string, n.fret), List.mem_map_of_mem _ hn, hf⟩ (hshapes pr hpr)
    · have hlens : ∀ q ∈ COMMON_SHAPES,
          q.2.length = 4 ∨ q.2.length = 5 ∨ q.2.length = 6 := by decide
      have hmap : (notes.map (fun n => (n.string, n.fret))).length = notes.length :=
        List.length_map _ _
      rcases hlens pr hpr with hq | hq | hq <;>
        (rw [matchesShape_of_length_ne _ _ (by omega)]; simp)

/-- Three all-open notes (the claim's explicit instance with exactly three
notes), on which `detect_chord_shape` returns normally. -/
def c10ThreeOpen : List GuitarNote :=
  [⟨40, 0, 1, 1, 0, 80, [], false, none, 0⟩, ⟨45, 0, 1, 2, 0, 80, [], false, none, 0⟩,
    ⟨50, 0, 1, 3, 0, 80, [], false, none, 0⟩]

/-- Witness for the amended C10 at a three-note all-open group. -/
theorem c10_detect_shape_amended_witness :
    (detectChordShape c10ThreeOpen).isSome = true :=
  c10_detect_shape_amended c10ThreeOpen (Or.inr (by norm_num [c10ThreeOpen]))

end Tab

end Music
